import Mathlib

/-!
Verification of the hft-volstack server against its specification.

The development shallowly embeds the TypeScript source:

* `TokenManager` — `src/server/src/services/fyersTokenManager.service.ts`
  (`getValidAccessToken`, `refreshAccessToken`, `performRefresh`); promises
  are modelled by their settled outcomes, times in milliseconds by `Int`.
* `HttpClient` — the response interceptor of
  `src/server/src/services/fyersHttpClient.ts`.
* `Chunking` — `chunkDateRange` and `syncStockData` from the route file
  preserved in `prisma/migrations/.../migration.sql`, and the `daysAgo`
  batch loop of the `/nifty50-1min` handler from `src/fyers/README.md`;
  calendar dates are modelled as integer day numbers (JavaScript `Date`
  day arithmetic via `setDate` is exact on day numbers).
* `Concurrency` — an event-interleaving machine for the token manager,
  with one scheduler step per `await` boundary of the source.
-/

namespace TokenManager

/-- Stored token record (`FyersToken` in `fyersToken.types`); `expiresAt`
is a millisecond epoch timestamp. -/
structure FyersToken where
  accessToken : String
  refreshToken : String
  expiresAt : Int
  deriving Repr, DecidableEq

/-- Body of a successful upstream `validate-refresh-token` response.
`refresh_token` and `expires_in` may be absent from the JSON. -/
structure RefreshResponse where
  access_token : String
  refresh_token : Option String
  expires_in : Option Int
  deriving Repr, DecidableEq

/-- Errors thrown by the token manager: the two `throw new Error(...)` sites
and a rethrown upstream axios error (carrying its HTTP status). -/
inductive TMError where
  | tokenMissing
  | refreshTokenMissing
  | upstream (status : Nat)
  deriving Repr, DecidableEq

/-- Outcome of the upstream refresh POST: a response body, or an axios error
with an HTTP status. -/
abbrev Upstream := Except Nat RefreshResponse

/-- JavaScript `x || d` on an optional number: `undefined` and `0` are falsy. -/
def jsOrNum (x : Option Int) (d : Int) : Int :=
  match x with
  | none => d
  | some v => if v = 0 then d else v

/-- State of the singleton `FyersTokenManager` together with the token file:
`store` is the content of `.fyers-token.json`, `refreshPromise` the private
field, modelled by the settled outcome of the cached promise. -/
structure TMState where
  store : Option FyersToken
  refreshPromise : Option (Except TMError String)
  deriving Repr

/-- Result of one call: the value returned or error thrown, the state
afterwards, and how many upstream refresh POSTs the call issued. -/
structure TMOutcome where
  result : Except TMError String
  state : TMState
  requests : Nat
  deriving Repr

/-- `performRefresh`: read the store; throw if no token; POST to
`validate-refresh-token`; on success build the updated token (keeping the
old refresh token if the response has none, defaulting `expires_in` to
86400 seconds) and save it; on error log and rethrow, leaving the store
untouched. Returns (outcome, store afterwards, upstream POSTs issued). -/
def performRefresh (up : Upstream) (now : Int) (store : Option FyersToken) :
    Except TMError String × Option FyersToken × Nat :=
  match store with
  | none => (.error .refreshTokenMissing, none, 0)
  | some token =>
    match up with
    | .error status => (.error (.upstream status), some token, 1)
    | .ok resp =>
      let updated : FyersToken :=
        { accessToken := resp.access_token
          refreshToken := resp.refresh_token.getD token.refreshToken
          expiresAt := now + jsOrNum resp.expires_in 86400 * 1000 }
      (.ok updated.accessToken, some updated, 1)

/-- `refreshAccessToken`: if no promise is cached, start `performRefresh`
and cache its promise; await it. Only when the await RESOLVES is the line
`this.refreshPromise = null` reached; a rejection propagates out of the
`await` and leaves the rejected promise cached. -/
def refreshAccessToken (up : Upstream) (now : Int) (s : TMState) : TMOutcome :=
  match s.refreshPromise with
  | some (.ok v) =>
    { result := .ok v, state := { s with refreshPromise := none }, requests := 0 }
  | some (.error e) =>
    { result := .error e, state := s, requests := 0 }
  | none =>
    match performRefresh up now s.store with
    | (.ok v, store1, n) =>
      { result := .ok v, state := { store := store1, refreshPromise := none }, requests := n }
    | (.error e, store1, n) =>
      { result := .error e
        state := { store := store1, refreshPromise := some (.error e) }
        requests := n }

/-- `getValidAccessToken`: read the store; throw `Fyers token missing` if
empty; return the stored token when it expires more than 60 s from now;
otherwise delegate to `refreshAccessToken`. -/
def getValidAccessToken (up : Upstream) (now : Int) (s : TMState) : TMOutcome :=
  match s.store with
  | none => { result := .error .tokenMissing, state := s, requests := 0 }
  | some token =>
    if token.expiresAt > now + 60000 then
      { result := .ok token.accessToken, state := s, requests := 0 }
    else
      refreshAccessToken up now s

/-- A sequence of `refreshAccessToken` calls (each with its own upstream
outcome and clock reading), threading the state and summing the upstream
POSTs issued. -/
def runRefreshCalls (calls : List (Upstream × Int)) (s : TMState) : TMState × Nat :=
  match calls with
  | [] => (s, 0)
  | c :: rest =>
    let o := refreshAccessToken c.1 c.2 s
    let r := runRefreshCalls rest o.state
    (r.1, o.requests + r.2)

end TokenManager

namespace TokenManager

/-- C7: `getValidAccessToken` returns the stored access token unchanged when
the stored token expires more than 60 s from now; fails with the
token-missing error when no token is stored; and when the stored token
expires within 60 s (with no cached promise and a successful upstream) it
issues exactly one refresh request and returns the refreshed token. -/
theorem getValidAccessToken_contract (up : Upstream) (now : Int) (s : TMState) :
    (∀ t, s.store = some t → t.expiresAt > now + 60000 →
      getValidAccessToken up now s = ⟨.ok t.accessToken, s, 0⟩)
    ∧ (s.store = none →
      getValidAccessToken up now s = ⟨.error .tokenMissing, s, 0⟩)
    ∧ (∀ t resp, s.store = some t → t.expiresAt ≤ now + 60000 →
      s.refreshPromise = none → up = .ok resp →
      (getValidAccessToken up now s).result = .ok resp.access_token ∧
      (getValidAccessToken up now s).requests = 1) := by
  refine ⟨?_, ?_, ?_⟩
  · intro t hst hexp
    simp [getValidAccessToken, hst, hexp]
  · intro hst
    simp [getValidAccessToken, hst]
  · intro t resp hst hexp hp hup
    have hnot : ¬ t.expiresAt > now + 60000 := by omega
    simp [getValidAccessToken, hst, hnot, refreshAccessToken, hp, hup, performRefresh]

/-- Witness for C7 at concrete states: a fresh token is returned as stored,
an empty store fails, and an expiring token yields the refreshed token with
one upstream request. -/
theorem getValidAccessToken_contract_witness :
    (getValidAccessToken (.ok ⟨"new", none, none⟩) 1000
        ⟨some ⟨"old", "r", 200000⟩, none⟩ = ⟨.ok "old", ⟨some ⟨"old", "r", 200000⟩, none⟩, 0⟩)
    ∧ (getValidAccessToken (.ok ⟨"new", none, none⟩) 1000 ⟨none, none⟩ =
        ⟨.error .tokenMissing, ⟨none, none⟩, 0⟩)
    ∧ ((getValidAccessToken (.ok ⟨"new", none, none⟩) 1000
        ⟨some ⟨"old", "r", 5000⟩, none⟩).result = .ok "new" ∧
       (getValidAccessToken (.ok ⟨"new", none, none⟩) 1000
        ⟨some ⟨"old", "r", 5000⟩, none⟩).requests = 1) := by
  obtain ⟨h1, h2, h3⟩ :=
    getValidAccessToken_contract (.ok ⟨"new", none, none⟩) 1000
      ⟨some ⟨"old", "r", 200000⟩, none⟩
  refine ⟨h1 ⟨"old", "r", 200000⟩ rfl (by decide), ?_, ?_⟩
  · obtain ⟨_, h2', _⟩ :=
      getValidAccessToken_contract (.ok ⟨"new", none, none⟩) 1000 ⟨none, none⟩
    exact h2' rfl
  · obtain ⟨_, _, h3'⟩ :=
      getValidAccessToken_contract (.ok ⟨"new", none, none⟩) 1000
        ⟨some ⟨"old", "r", 5000⟩, none⟩
    exact h3' ⟨"old", "r", 5000⟩ ⟨"new", none, none⟩ rfl (by decide) rfl rfl

/-- C8: when a refresh fails the error propagates to the caller and the
stored token is untouched: every failing `refreshAccessToken` call leaves
`store` exactly as it was, and in the ordinary failure scenario (token
stored, no cached promise, upstream error) the upstream error itself is
rethrown with the stale token still in the store. -/
theorem refresh_failure_preserves_store (up : Upstream) (now : Int) (s : TMState) :
    (∀ e, (refreshAccessToken up now s).result = .error e →
      (refreshAccessToken up now s).state.store = s.store)
    ∧ (∀ t status, s.store = some t → s.refreshPromise = none → up = .error status →
      (refreshAccessToken up now s).result = .error (.upstream status) ∧
      (refreshAccessToken up now s).state.store = some t) := by
  constructor
  · intro e
    match hp : s.refreshPromise with
    | some (.ok v) => simp [refreshAccessToken, hp]
    | some (.error e') => simp [refreshAccessToken, hp]
    | none =>
      match hst : s.store with
      | none => simp [refreshAccessToken, hp, performRefresh, hst]
      | some t =>
        match up with
        | .error status => simp [refreshAccessToken, hp, performRefresh, hst]
        | .ok resp => simp [refreshAccessToken, hp, performRefresh, hst]
  · intro t status hst hp hup
    simp [refreshAccessToken, hp, hup, performRefresh, hst]

/-- Witness for C8: a concrete failing refresh returns the upstream error
and keeps the stale stored token. -/
theorem refresh_failure_preserves_store_witness :
    (refreshAccessToken (.error 500) 1000 ⟨some ⟨"old", "r", 5000⟩, none⟩).result =
      .error (.upstream 500) ∧
    (refreshAccessToken (.error 500) 1000 ⟨some ⟨"old", "r", 5000⟩, none⟩).state.store =
      some ⟨"old", "r", 5000⟩ := by
  obtain ⟨_, h⟩ :=
    refresh_failure_preserves_store (.error 500) 1000 ⟨some ⟨"old", "r", 5000⟩, none⟩
  exact h ⟨"old", "r", 5000⟩ 500 rfl rfl rfl

/-- C10: a failed in-flight refresh leaves the rejected promise cached in
`refreshPromise`; from then on every `refreshAccessToken` call — whatever
the clock, the upstream, or the store, hence also after a re-login has
saved a fresh token — returns the same cached error, issues no upstream
request and leaves the state unchanged; `getValidAccessToken` on a token
within 60 s of expiry does the same; and any sequence of further calls
issues zero upstream requests in total. -/
theorem rejected_refresh_promise_is_permanent (e : TMError) :
    (∀ (t : FyersToken) (s : TMState) (status : Nat) (now : Int),
      s.refreshPromise = none → s.store = some t →
      (refreshAccessToken (.error status) now s).state.refreshPromise =
        some (.error (.upstream status)))
    ∧ (∀ (s : TMState) (up : Upstream) (now : Int),
      s.refreshPromise = some (.error e) →
      refreshAccessToken up now s = ⟨.error e, s, 0⟩)
    ∧ (∀ (s : TMState) (t : FyersToken) (up : Upstream) (now : Int),
      s.refreshPromise = some (.error e) → s.store = some t →
      t.expiresAt ≤ now + 60000 →
      getValidAccessToken up now s = ⟨.error e, s, 0⟩)
    ∧ (∀ (calls : List (Upstream × Int)) (s : TMState),
      s.refreshPromise = some (.error e) →
      runRefreshCalls calls s = (s, 0)) := by
  have habsorb : ∀ (s : TMState) (up : Upstream) (now : Int),
      s.refreshPromise = some (.error e) →
      refreshAccessToken up now s = ⟨.error e, s, 0⟩ := by
    intro s up now hp
    simp [refreshAccessToken, hp]
  refine ⟨?_, habsorb, ?_, ?_⟩
  · intro t s status now hp hst
    simp [refreshAccessToken, hp, performRefresh, hst]
  · intro s t up now hp hst hexp
    have hnot : ¬ t.expiresAt > now + 60000 := by omega
    simp [getValidAccessToken, hst, hnot, habsorb s up now hp]
  · intro calls
    induction calls with
    | nil => intro s _; rfl
    | cons c rest ih =>
      intro s hp
      simp [runRefreshCalls, habsorb s c.1 c.2 hp, ih s hp]

/-- Witness for C10: after one failed refresh from a concrete state, the
rejection is cached; the poisoned state absorbs a later call made with a
healthy upstream and a freshly re-saved token, both directly and through
`getValidAccessToken`, and a two-call sequence issues zero requests. -/
theorem rejected_refresh_promise_is_permanent_witness :
    (refreshAccessToken (.error 500) 1000
        ⟨some ⟨"old", "r", 5000⟩, none⟩).state.refreshPromise =
      some (.error (.upstream 500)) ∧
    refreshAccessToken (.ok ⟨"new", none, none⟩) 2000
        ⟨some ⟨"fresh", "r2", 99999999⟩, some (.error (.upstream 500))⟩ =
      ⟨.error (.upstream 500),
        ⟨some ⟨"fresh", "r2", 99999999⟩, some (.error (.upstream 500))⟩, 0⟩ ∧
    getValidAccessToken (.ok ⟨"new", none, none⟩) 2000
        ⟨some ⟨"stale", "r2", 3000⟩, some (.error (.upstream 500))⟩ =
      ⟨.error (.upstream 500),
        ⟨some ⟨"stale", "r2", 3000⟩, some (.error (.upstream 500))⟩, 0⟩ ∧
    runRefreshCalls [(.ok ⟨"new", none, none⟩, 2000), (.error 404, 3000)]
        ⟨some ⟨"stale", "r2", 3000⟩, some (.error (.upstream 500))⟩ =
      (⟨some ⟨"stale", "r2", 3000⟩, some (.error (.upstream 500))⟩, 0) := by
  obtain ⟨h1, h2, h3, h4⟩ := rejected_refresh_promise_is_permanent (.upstream 500)
  refine ⟨h1 ⟨"old", "r", 5000⟩ ⟨some ⟨"old", "r", 5000⟩, none⟩ 500 1000 rfl rfl,
    h2 ⟨some ⟨"fresh", "r2", 99999999⟩, some (.error (.upstream 500))⟩
      (.ok ⟨"new", none, none⟩) 2000 rfl,
    h3 ⟨some ⟨"stale", "r2", 3000⟩, some (.error (.upstream 500))⟩
      ⟨"stale", "r2", 3000⟩ (.ok ⟨"new", none, none⟩) 2000 rfl rfl (by decide),
    h4 [(.ok ⟨"new", none, none⟩, 2000), (.error 404, 3000)]
      ⟨some ⟨"stale", "r2", 3000⟩, some (.error (.upstream 500))⟩ rfl⟩

end TokenManager

namespace Chunking

/-- `chunkDateRange` from the sync route (kept in
`prisma/migrations/.../migration.sql`): while the cursor is strictly before
the end date, emit a chunk from the cursor to `cursor + chunkDays`, clamped
to the end date, and restart the cursor one day after the chunk's end.
Dates are integer day numbers; JavaScript `setDate` arithmetic adds exactly
the given number of days. -/
def chunkDateRange (currentStart finalEnd : Int) (chunkDays : Nat) : List (Int × Int) :=
  if h : currentStart < finalEnd then
    (currentStart, min (currentStart + chunkDays) finalEnd) ::
      chunkDateRange (min (currentStart + chunkDays) finalEnd + 1) finalEnd chunkDays
  else
    []
termination_by (finalEnd - currentStart).toNat
decreasing_by
  simp_wf
  omega

/-- The chunk list covers exactly the days of the inclusive range `[s, e]`. -/
def coversDays (chunks : List (Int × Int)) (s e : Int) : Prop :=
  ∀ d : Int, (s ≤ d ∧ d ≤ e) ↔ ∃ c ∈ chunks, c.1 ≤ d ∧ d ≤ c.2

/-- Last day actually reached by `chunkDateRange s e L`: the cursor advances
by `L + 1` days per chunk, and the `currentStart < finalEnd` guard stops it
one day short exactly when `e - s` is a multiple of `L + 1`. -/
def coverEnd (s e : Int) (L : Nat) : Int :=
  if (e - s) % (L + 1) = 0 then e - 1 else e

theorem chunkDateRange_cons {s e : Int} {L : Nat} (h : s < e) :
    chunkDateRange s e L =
      (s, min (s + L) e) :: chunkDateRange (min (s + L) e + 1) e L := by
  rw [chunkDateRange]
  simp [h]

theorem chunkDateRange_nil {s e : Int} {L : Nat} (h : ¬ s < e) :
    chunkDateRange s e L = [] := by
  rw [chunkDateRange]
  simp [h]

theorem chunkDateRange_struct (L : Nat) (n : Nat) :
    ∀ s e : Int, (e - s).toNat ≤ n → s < e →
      (∀ c ∈ chunkDateRange s e L, s ≤ c.1 ∧ c.1 ≤ c.2 ∧ c.2 - c.1 ≤ L ∧ c.2 ≤ e)
      ∧ List.Chain' (fun a b => b.1 = a.2 + 1) (chunkDateRange s e L)
      ∧ (chunkDateRange s e L).Pairwise (fun a b => a.2 < b.1)
      ∧ coversDays (chunkDateRange s e L) s (coverEnd s e L) := by
  induction n with
  | zero =>
    intro s e hn hlt
    exact absurd hn (by omega)
  | succ n ih =>
    intro s e hn hlt
    have heq := chunkDateRange_cons (L := L) hlt
    have hmle : min (s + (L : Int)) e ≤ e := min_le_right _ _
    have hmge : s ≤ min (s + (L : Int)) e := le_min (by omega) (by omega)
    by_cases hrec : min (s + (L : Int)) e + 1 < e
    · -- the tail is a nonempty recursive chunking of the remaining days
      have hmval : min (s + (L : Int)) e = s + L := by omega
      have hrn : (e - (min (s + (L : Int)) e + 1)).toNat ≤ n := by omega
      obtain ⟨ihb, ihch, ihpw, ihcov⟩ := ih (min (s + (L : Int)) e + 1) e hrn hrec
      have htl := chunkDateRange_cons (L := L) hrec
      have hce : coverEnd s e L = coverEnd (min (s + (L : Int)) e + 1) e L := by
        unfold coverEnd
        have : (e - (min (s + (L : Int)) e + 1)) % ((L : Int) + 1) =
            (e - s) % ((L : Int) + 1) := by
          have harg : e - (min (s + (L : Int)) e + 1) = e - s - ((L : Int) + 1) := by omega
          rw [harg, Int.sub_emod, Int.emod_self]
          simp [Int.emod_emod_of_dvd]
        rw [this]
      refine ⟨?_, ?_, ?_, ?_⟩
      · intro c hc
        rw [heq] at hc
        rcases List.mem_cons.mp hc with hc | hc
        · subst hc
          refine ⟨le_refl _, hmge, by omega, hmle⟩
        · obtain ⟨h1, h2, h3, h4⟩ := ihb c hc
          exact ⟨by omega, h2, h3, h4⟩
      · rw [heq, htl]
        rw [htl] at ihch
        exact List.Chain'.cons (by simp) ihch
      · rw [heq]
        refine List.pairwise_cons.mpr ⟨?_, ihpw⟩
        intro c hc
        obtain ⟨h1, _, _, _⟩ := ihb c hc
        simp only
        omega
      · intro d
        rw [heq]
        have hcovd := ihcov d
        rw [← hce] at hcovd
        have hcebound : coverEnd s e L = e - 1 ∨ coverEnd s e L = e := by
          unfold coverEnd
          split
          · exact Or.inl rfl
          · exact Or.inr rfl
        constructor
        · rintro ⟨hsd, hdce⟩
          by_cases hdm : d ≤ min (s + (L : Int)) e
          · exact ⟨(s, min (s + (L : Int)) e), List.mem_cons_self _ _, hsd, hdm⟩
          · obtain ⟨c, hc, hcd⟩ := hcovd.mp ⟨by omega, hdce⟩
            exact ⟨c, List.mem_cons_of_mem _ hc, hcd⟩
        · rintro ⟨c, hc, hcd1, hcd2⟩
          rcases List.mem_cons.mp hc with rfl | hc
          · have hd1 : s ≤ d := hcd1
            have hd2 : d ≤ min (s + (L : Int)) e := hcd2
            exact ⟨hd1, by omega⟩
          · obtain ⟨h1, h2⟩ := hcovd.mpr ⟨c, hc, hcd1, hcd2⟩
            exact ⟨by omega, h2⟩
    · -- the tail is empty: a single final chunk
      have htl : chunkDateRange (min (s + (L : Int)) e + 1) e L = [] :=
        chunkDateRange_nil hrec
      have hsingle : chunkDateRange s e L = [(s, min (s + (L : Int)) e)] := by
        rw [heq, htl]
      have hcem : coverEnd s e L = min (s + (L : Int)) e := by
        by_cases hme : e ≤ s + (L : Int)
        · have hmval : min (s + (L : Int)) e = e := by omega
          have hmod : (e - s) % ((L : Int) + 1) = e - s :=
            Int.emod_eq_of_lt (by omega) (by omega)
          unfold coverEnd
          rw [hmod, if_neg (by omega), hmval]
        · have hmval : min (s + (L : Int)) e = s + L := by omega
          have heval : e = s + L + 1 := by omega
          have hmod : (e - s) % ((L : Int) + 1) = 0 := by
            have harg : e - s = (L : Int) + 1 := by omega
            rw [harg]
            exact Int.emod_self
          unfold coverEnd
          rw [hmod, if_pos rfl, hmval]
          omega
      refine ⟨?_, ?_, ?_, ?_⟩
      · intro c hc
        rw [hsingle] at hc
        simp only [List.mem_singleton] at hc
        subst hc
        exact ⟨le_refl _, hmge, by omega, hmle⟩
      · rw [hsingle]
        simp
      · rw [hsingle]
        simp
      · intro d
        rw [hsingle, hcem]
        constructor
        · rintro ⟨h1, h2⟩
          exact ⟨(s, min (s + (L : Int)) e), List.mem_cons_self _ _, h1, h2⟩
        · rintro ⟨c, hc, h1, h2⟩
          rcases List.mem_cons.mp hc with rfl | hc
          · have hd2 : d ≤ min (s + (L : Int)) e := h2
            exact ⟨h1, hd2⟩
          · exact absurd hc (List.not_mem_nil c)

end Chunking

namespace Chunking

/-- C3 (amended): for every date range with `start < end` and every chunk
limit `L`, `chunkDateRange` returns an ordered sequence of chunks, each
spanning at most `L` days and lying inside the range, contiguous (each next
chunk starts the day after the previous one ends) and non-overlapping; the
chunks cover exactly the days `[start, coverEnd]`, where `coverEnd = end`
whenever `end - start` is not a multiple of `L + 1` (otherwise the final
day `end` is dropped); and every range of `1..L` days produces exactly one
chunk equal to the input range. A range with `start = end` produces no
chunks (see the counterexample). -/
theorem chunkDateRange_partition (s e : Int) (L : Nat) (h : s < e) :
    (∀ c ∈ chunkDateRange s e L, s ≤ c.1 ∧ c.1 ≤ c.2 ∧ c.2 - c.1 ≤ L ∧ c.2 ≤ e)
    ∧ List.Chain' (fun a b => b.1 = a.2 + 1) (chunkDateRange s e L)
    ∧ (chunkDateRange s e L).Pairwise (fun a b => a.2 < b.1)
    ∧ coversDays (chunkDateRange s e L) s (coverEnd s e L)
    ∧ ((e - s) % ((L : Int) + 1) ≠ 0 → coverEnd s e L = e)
    ∧ (e - s ≤ L → chunkDateRange s e L = [(s, e)]) := by
  obtain ⟨hb, hch, hpw, hcov⟩ :=
    chunkDateRange_struct L (e - s).toNat s e (le_refl _) h
  refine ⟨hb, hch, hpw, hcov, ?_, ?_⟩
  · intro hne
    unfold coverEnd
    rw [if_neg hne]
  · intro hle
    have hm : min (s + (L : Int)) e = e := by omega
    rw [chunkDateRange_cons h, hm, chunkDateRange_nil (by omega)]

/-- Witness for C3 (amended) on the 200-day range with the 90-day limit and
on a 4-day range: the chunks are contiguous, cover the whole range
(200 is not a multiple of 91), and the short range gives a single chunk. -/
theorem chunkDateRange_partition_witness :
    List.Chain' (fun a b => b.1 = a.2 + 1) (chunkDateRange 0 200 90)
    ∧ coversDays (chunkDateRange 0 200 90) 0 (coverEnd 0 200 90)
    ∧ coverEnd 0 200 90 = 200
    ∧ chunkDateRange 1 5 90 = [(1, 5)] := by
  obtain ⟨_, hch, _, hcov, hce, _⟩ := chunkDateRange_partition 0 200 90 (by norm_num)
  obtain ⟨_, _, _, _, _, hone⟩ := chunkDateRange_partition 1 5 90 (by norm_num)
  exact ⟨hch, hcov, hce (by norm_num), hone (by norm_num)⟩

/-- C3 counterexample: the guard `currentStart < finalEnd` drops the final
day whenever the remaining span lands exactly on it. Chunking the 91-day
range `[0, 91]` with limit 90 yields the single chunk `[0, 90]`, which does
not cover day 91 — the chunks do not cover the full range. A 0-day range
(`start = end`) yields no chunks at all instead of one chunk equal to the
input range. -/
theorem chunkDateRange_misses_final_day :
    chunkDateRange 0 91 90 = [(0, 90)]
    ∧ ¬ coversDays (chunkDateRange 0 91 90) 0 91
    ∧ chunkDateRange 5 5 90 = [] := by
  have h91 : chunkDateRange (91 : Int) 91 90 = [] := chunkDateRange_nil (by norm_num)
  have h1 : chunkDateRange 0 91 90 = [(0, 90)] := by
    rw [chunkDateRange_cons (by norm_num)]
    norm_num [min_def, h91]
  refine ⟨h1, ?_, chunkDateRange_nil (by norm_num)⟩
  intro hcov
  have h91d := (hcov 91).mp (by norm_num)
  rw [h1] at h91d
  obtain ⟨c, hc, hle1, hle2⟩ := h91d
  rcases List.mem_cons.mp hc with rfl | hc
  · have hb : (91 : Int) ≤ 90 := hle2
    omega
  · exact absurd hc (List.not_mem_nil c)

/-- The `daysAgo` batch loop of the `/nifty50-1min` handler in the README:
`for (let daysAgo = totalDays; daysAgo > 0; daysAgo -= batchSize)` records
the batch `(daysAgo, batchEndDaysAgo)` with
`batchEndDaysAgo = Math.max(0, daysAgo - batchSize)` — natural subtraction
is that clamp. A batch reaches from `daysAgo` days ago to `batchEndDaysAgo`
days ago, so it spans `daysAgo - batchEndDaysAgo` days. (With
`batchSize = 0` the JavaScript loop would not terminate; the model returns
`[]` there, and the claims only use `batchSize = 90`.) -/
def batchChunks (batchSize d : Nat) : List (Nat × Nat) :=
  if _h : 0 < batchSize ∧ 0 < d then
    (d, d - batchSize) :: batchChunks batchSize (d - batchSize)
  else []
termination_by d
decreasing_by omega

/-- C9: fetching a 200-day range with the 90-day per-request limit, the
batch loop issues exactly 3 requests spanning 90, 90 and 20 days, in that
order. -/
theorem batchChunks_200_90 :
    batchChunks 90 200 = [(200, 110), (110, 20), (20, 0)]
    ∧ (batchChunks 90 200).map (fun c => c.1 - c.2) = [90, 90, 20]
    ∧ (batchChunks 90 200).length = 3 := by
  have e1 : batchChunks 90 200 = (200, 110) :: batchChunks 90 110 := by
    rw [batchChunks]
    norm_num
  have e2 : batchChunks 90 110 = (110, 20) :: batchChunks 90 20 := by
    rw [batchChunks]
    norm_num
  have e3 : batchChunks 90 20 = (20, 0) :: batchChunks 90 0 := by
    rw [batchChunks]
    norm_num
  have e4 : batchChunks 90 0 = [] := by
    rw [batchChunks]
    norm_num
  rw [e1, e2, e3, e4]
  norm_num

/-- For contrast with the batch loop of the README: on the same 200-day
range `chunkDateRange` produces three chunks spanning 90, 90 and 18 days
(it skips one day between consecutive chunks, so the chunks partition the
range instead of sharing endpoints). -/
theorem chunkDateRange_200_90_spans :
    chunkDateRange 0 200 90 = [(0, 90), (91, 181), (182, 200)]
    ∧ (chunkDateRange 0 200 90).map (fun c => c.2 - c.1) = [90, 90, 18] := by
  have h3 : chunkDateRange (201 : Int) 200 90 = [] := chunkDateRange_nil (by norm_num)
  have h2 : chunkDateRange (182 : Int) 200 90 = [(182, 200)] := by
    rw [chunkDateRange_cons (by norm_num)]
    norm_num [min_def, h3]
  have h1 : chunkDateRange (91 : Int) 200 90 = [(91, 181), (182, 200)] := by
    rw [chunkDateRange_cons (by norm_num)]
    norm_num [min_def, h2]
  have h0 : chunkDateRange (0 : Int) 200 90 = [(0, 90), (91, 181), (182, 200)] := by
    rw [chunkDateRange_cons (by norm_num)]
    norm_num [min_def, h1]
  rw [h0]
  norm_num

end Chunking

namespace Market

/-- One OHLCV candle as delivered by the Fyers history API:
`[timestamp, open, high, low, close, volume]`. The field `opn` renders the
source's `open` (a Lean keyword). Prices and volumes are modelled as
integers — the claims concern which values are stored, not price
arithmetic. -/
structure Candle where
  timestamp : Int
  opn : Int
  high : Int
  low : Int
  close : Int
  volume : Int
  deriving Repr, DecidableEq

/-- A stock's 1-minute Prisma table (`nifty_spot_1min`, `hdfc_spot_1min`,
...; one table per symbol): rows keyed by the primary-key `timestamp`. -/
abbrev Table := List Candle

/-- The `update` clause of `config.model.upsert`: set the existing row's
open, high, low, close and volume to the new candle's values, keeping its
timestamp. -/
def updateRow (r c : Candle) : Candle :=
  { timestamp := r.timestamp
    opn := c.opn
    high := c.high
    low := c.low
    close := c.close
    volume := c.volume }

/-- `config.model.upsert` with `where: (timestamp = c.timestamp)`: if a
row with that timestamp exists, update it with the new values; otherwise
create a new row from the candle. -/
def upsert (table : Table) (c : Candle) : Table :=
  if table.any (fun r => r.timestamp == c.timestamp) then
    table.map (fun r => if r.timestamp == c.timestamp then updateRow r c else r)
  else
    table ++ [c]

theorem map_id_of {α : Type} (l : List α) (f : α → α) (h : ∀ a ∈ l, f a = a) :
    l.map f = l := by
  induction l with
  | nil => rfl
  | cons a l ih =>
    simp only [List.map_cons, h a (List.mem_cons_self a l)]
    rw [ih (fun b hb => h b (List.mem_cons_of_mem a hb))]

/-- C4: upserting two candles with the same timestamp into a table that
does not yet contain that timestamp first creates the row and then updates
it in place: the final table holds exactly one row with that timestamp,
carrying the second candle's open/high/low/close/volume, and the table has
grown by exactly one row. -/
theorem upsert_twice_second_wins (table : Table) (c1 c2 : Candle)
    (hts : c2.timestamp = c1.timestamp)
    (hfresh : ∀ r ∈ table, r.timestamp ≠ c1.timestamp) :
    upsert table c1 = table ++ [c1]
    ∧ upsert (upsert table c1) c2 = table ++ [updateRow c1 c2]
    ∧ ((upsert (upsert table c1) c2).filter
        (fun r => r.timestamp == c1.timestamp)).length = 1
    ∧ (∀ r ∈ upsert (upsert table c1) c2, r.timestamp = c1.timestamp →
        r.opn = c2.opn ∧ r.high = c2.high ∧ r.low = c2.low ∧
        r.close = c2.close ∧ r.volume = c2.volume)
    ∧ (upsert (upsert table c1) c2).length = table.length + 1 := by
  have hany1 : table.any (fun r => r.timestamp == c1.timestamp) = false := by
    rw [List.any_eq_false]
    intro r hr
    simpa using hfresh r hr
  have ht1 : upsert table c1 = table ++ [c1] := by
    rw [upsert, hany1]
    simp
  have hany2 : (table ++ [c1]).any (fun r => r.timestamp == c2.timestamp) = true := by
    rw [List.any_eq_true]
    exact ⟨c1, by simp [hts]⟩
  have ht2 : upsert (table ++ [c1]) c2 = table ++ [updateRow c1 c2] := by
    rw [upsert, hany2]
    simp only [if_true, List.map_append]
    have hmap : table.map
        (fun r => if r.timestamp == c2.timestamp then updateRow r c2 else r) = table := by
      apply map_id_of
      intro r hr
      have : ¬ r.timestamp = c2.timestamp := by
        rw [hts]
        exact hfresh r hr
      simp [this]
    rw [hmap]
    simp [hts]
  refine ⟨ht1, by rw [ht1, ht2], ?_, ?_, ?_⟩
  · rw [ht1, ht2, List.filter_append]
    have hleft : table.filter (fun r => r.timestamp == c1.timestamp) = [] := by
      rw [List.filter_eq_nil_iff]
      intro r hr
      simpa using hfresh r hr
    rw [hleft]
    simp [updateRow]
  · intro r hr hteq
    rw [ht1, ht2] at hr
    rcases List.mem_append.mp hr with hr | hr
    · exact absurd hteq (hfresh r hr)
    · rcases List.mem_singleton.mp hr with rfl
      simp [updateRow]
  · rw [ht1, ht2]
    simp

/-- Witness for C4: upserting a candle at the fresh timestamp 7 and then a
second candle at the same timestamp into a one-row table leaves two rows,
with the second candle's values at timestamp 7. -/
theorem upsert_twice_second_wins_witness :
    upsert [⟨1, 9, 9, 9, 9, 9⟩] ⟨7, 1, 2, 3, 4, 5⟩ =
      [⟨1, 9, 9, 9, 9, 9⟩, ⟨7, 1, 2, 3, 4, 5⟩]
    ∧ upsert (upsert [⟨1, 9, 9, 9, 9, 9⟩] ⟨7, 1, 2, 3, 4, 5⟩) ⟨7, 10, 20, 30, 40, 50⟩ =
      [⟨1, 9, 9, 9, 9, 9⟩, ⟨7, 10, 20, 30, 40, 50⟩]
    ∧ ((upsert (upsert [⟨1, 9, 9, 9, 9, 9⟩] ⟨7, 1, 2, 3, 4, 5⟩)
        ⟨7, 10, 20, 30, 40, 50⟩).filter (fun r => r.timestamp == (7 : Int))).length = 1 := by
  obtain ⟨h1, h2, h3, _, _⟩ :=
    upsert_twice_second_wins [⟨1, 9, 9, 9, 9, 9⟩] ⟨7, 1, 2, 3, 4, 5⟩ ⟨7, 10, 20, 30, 40, 50⟩
      rfl (by intro r hr; simp at hr; subst hr; decide)
  exact ⟨h1, by rw [h2]; rfl, h3⟩

end Market

namespace Sync

/-- Result of `fyersApiService.getHistoricalData` for one chunk, as the
chunk loop of `syncStockData` distinguishes it: a successful `s: "ok"`
payload with its candles; a response with `s !== "ok"` or missing candles
(logged, then `continue`); or a thrown error (caught by the chunk-level
`catch`, logged, and rethrown by `throw error`). -/
inductive ChunkFetch where
  | ok (candles : List Market.Candle)
  | apiError
  | exn
  deriving Repr

/-- The two ways the model of `syncStockData` can throw: a rethrown chunk
exception, or the `Failed to fetch data from Fyers` error of the
unchunked path. -/
inductive SyncError where
  | chunkException
  | fetchFailed
  deriving Repr, DecidableEq

/-- Aggregate counters accumulated by `syncStockData`. -/
structure SyncTotals where
  total : Nat
  inserted : Nat
  updated : Nat
  skipped : Nat
  deriving Repr, DecidableEq

/-- The per-candle loop of one chunk: upsert every candle in delivery
order. In this pure model the Prisma upsert always succeeds, so each
candle increments the `inserted` counter (as in the source, whose `P2002`
and error branches only fire when the database rejects the upsert).
Returns the table and the number of upserts counted. -/
def insertChunk (table : Market.Table) (candles : List Market.Candle) :
    Market.Table × Nat :=
  match candles with
  | [] => (table, 0)
  | c :: rest =>
    let r := insertChunk (Market.upsert table c) rest
    (r.1, r.2 + 1)

/-- The chunk loop of `syncStockData` for ranges over 90 days: process the
chunks in order, threading the table and the running totals; a non-ok
response is logged and skipped (`continue`); a thrown fetch error is
rethrown, aborting the loop and the whole sync. -/
def syncChunks (fetch : Int × Int → ChunkFetch) (chunks : List (Int × Int))
    (table : Market.Table) (acc : SyncTotals) :
    Except SyncError (SyncTotals × Market.Table) :=
  match chunks with
  | [] => .ok (acc, table)
  | ch :: rest =>
    match fetch ch with
    | .apiError => syncChunks fetch rest table acc
    | .exn => .error .chunkException
    | .ok candles =>
      let r := insertChunk table candles
      syncChunks fetch rest r.1
        { total := acc.total + candles.length
          inserted := acc.inserted + r.2
          updated := acc.updated
          skipped := acc.skipped }

/-- `syncStockData` on a range `[s, e]` (day numbers, so
`daysDiff = e - s`): ranges over 90 days are chunked through
`chunkDateRange` and run through the chunk loop; shorter ranges are
fetched in one request, whose failure throws. -/
def syncStockData (fetch : Int × Int → ChunkFetch) (s e : Int)
    (table : Market.Table) : Except SyncError (SyncTotals × Market.Table) :=
  if e - s > 90 then
    syncChunks fetch (Chunking.chunkDateRange s e 90) table ⟨0, 0, 0, 0⟩
  else
    match fetch (s, e) with
    | .ok candles =>
      let r := insertChunk table candles
      .ok (⟨candles.length, r.2, 0, 0⟩, r.1)
    | _ => .error .fetchFailed

/-- Total number of candles delivered by the chunks whose fetch succeeded. -/
def okCandleSum (fetch : Int × Int → ChunkFetch) (chunks : List (Int × Int)) : Nat :=
  (chunks.map (fun ch =>
    match fetch ch with
    | .ok cs => cs.length
    | _ => 0)).sum

theorem insertChunk_count (candles : List Market.Candle) :
    ∀ table : Market.Table, (insertChunk table candles).2 = candles.length := by
  induction candles with
  | nil => intro table; rfl
  | cons c rest ih =>
    intro table
    simp [insertChunk, ih]

theorem syncChunks_no_exn (fetch : Int × Int → ChunkFetch) (chunks : List (Int × Int)) :
    ∀ (table : Market.Table) (acc : SyncTotals),
      (∀ ch ∈ chunks, fetch ch ≠ .exn) →
      ∃ table1, syncChunks fetch chunks table acc =
        .ok (⟨acc.total + okCandleSum fetch chunks,
              acc.inserted + okCandleSum fetch chunks,
              acc.updated, acc.skipped⟩, table1) := by
  induction chunks with
  | nil =>
    intro table acc _
    exact ⟨table, by simp [syncChunks, okCandleSum]⟩
  | cons ch rest ih =>
    intro table acc hne
    have hch : fetch ch ≠ .exn := hne ch (List.mem_cons_self ch rest)
    have hrest : ∀ c ∈ rest, fetch c ≠ .exn :=
      fun c hc => hne c (List.mem_cons_of_mem ch hc)
    match hf : fetch ch with
    | .exn => exact absurd hf hch
    | .apiError =>
      obtain ⟨table1, h1⟩ := ih table acc hrest
      refine ⟨table1, ?_⟩
      rw [syncChunks, hf]
      simp only
      rw [h1]
      have hsum : okCandleSum fetch (ch :: rest) = okCandleSum fetch rest := by
        simp [okCandleSum, hf]
      rw [hsum]
    | .ok candles =>
      obtain ⟨table1, h1⟩ := ih (insertChunk table candles).1
        ⟨acc.total + candles.length, acc.inserted + (insertChunk table candles).2,
          acc.updated, acc.skipped⟩ hrest
      refine ⟨table1, ?_⟩
      rw [syncChunks, hf]
      simp only
      rw [h1]
      have hsum : okCandleSum fetch (ch :: rest) =
          candles.length + okCandleSum fetch rest := by
        simp [okCandleSum, hf]
      rw [hsum, insertChunk_count]
      congr 2
      simp only [SyncTotals.mk.injEq, and_true]
      omega

/-- C5 (amended): during a chunked sync of a multi-chunk range, a chunk
whose fetch returns a non-ok response is skipped without aborting the
remaining chunks, and when no chunk fetch throws, the sync returns
aggregate counts for the whole range (total candles fetched across the
successful chunks, all counted as inserted in this model, with the
updated/skipped counters as accumulated). A chunk whose fetch THROWS,
however, aborts the whole sync (see the counterexample). -/
theorem syncStockData_partial_success (fetch : Int × Int → ChunkFetch) (s e : Int)
    (table : Market.Table) (hrange : e - s > 90)
    (hnoexn : ∀ ch ∈ Chunking.chunkDateRange s e 90, fetch ch ≠ .exn) :
    ∃ table1, syncStockData fetch s e table =
      .ok (⟨okCandleSum fetch (Chunking.chunkDateRange s e 90),
            okCandleSum fetch (Chunking.chunkDateRange s e 90), 0, 0⟩, table1) := by
  obtain ⟨table1, h1⟩ :=
    syncChunks_no_exn fetch (Chunking.chunkDateRange s e 90) table ⟨0, 0, 0, 0⟩ hnoexn
  refine ⟨table1, ?_⟩
  rw [syncStockData, if_pos hrange, h1]
  simp

end Sync

namespace Sync

theorem chunkDateRange_0_100_90 :
    Chunking.chunkDateRange 0 100 90 = [(0, 90), (91, 100)] := by
  have h2 : Chunking.chunkDateRange (101 : Int) 100 90 = [] :=
    Chunking.chunkDateRange_nil (by norm_num)
  have h1 : Chunking.chunkDateRange (91 : Int) 100 90 = [(91, 100)] := by
    rw [Chunking.chunkDateRange_cons (by norm_num)]
    norm_num [min_def, h2]
  rw [Chunking.chunkDateRange_cons (by norm_num)]
  norm_num [min_def, h1]

/-- Witness for C5 (amended): syncing the 100-day range `[0, 100]` (split
into the chunks `[0, 90]` and `[91, 100]`) when the first chunk's fetch
returns a non-ok response and the second delivers one candle: the failed
chunk is skipped and the sync reports one candle fetched and inserted. -/
theorem syncStockData_partial_success_witness :
    ∃ table1,
      syncStockData
        (fun ch => if ch.1 = 0 then ChunkFetch.apiError
          else ChunkFetch.ok [⟨0, 1, 2, 3, 4, 5⟩]) 0 100 [] =
        .ok (⟨1, 1, 0, 0⟩, table1) := by
  obtain ⟨table1, h⟩ :=
    syncStockData_partial_success
      (fun ch => if ch.1 = 0 then ChunkFetch.apiError
        else ChunkFetch.ok [⟨0, 1, 2, 3, 4, 5⟩]) 0 100 []
      (by norm_num)
      (by
        rw [chunkDateRange_0_100_90]
        intro ch hc
        rcases List.mem_cons.mp hc with rfl | hc
        · simp
        · rcases List.mem_singleton.mp hc with rfl
          simp)
  rw [chunkDateRange_0_100_90] at h
  have hok : okCandleSum
      (fun ch => if ch.1 = 0 then ChunkFetch.apiError
        else ChunkFetch.ok [⟨0, 1, 2, 3, 4, 5⟩])
      [((0 : Int), (90 : Int)), (91, 100)] = 1 := by
    simp [okCandleSum]
  rw [hok] at h
  exact ⟨table1, h⟩

/-- C5 counterexample: the chunk-level `catch` rethrows (`throw error`), so
an exception in a single chunk aborts the whole multi-chunk sync. Syncing
the 100-day range `[0, 100]` where the first chunk's fetch throws and the
second chunk would deliver a candle returns the rethrown error: the second
chunk is never processed and no aggregate counts are reported. -/
theorem syncStockData_chunk_exception_aborts :
    syncStockData
      (fun ch => if ch.1 = 0 then ChunkFetch.exn
        else ChunkFetch.ok [⟨0, 1, 2, 3, 4, 5⟩]) 0 100 [] =
      .error .chunkException
    ∧ (fun ch : Int × Int => if ch.1 = 0 then ChunkFetch.exn
        else ChunkFetch.ok [⟨0, 1, 2, 3, 4, 5⟩]) (91, 100) =
      ChunkFetch.ok [⟨0, 1, 2, 3, 4, 5⟩] := by
  constructor
  · rw [syncStockData, if_pos (by norm_num), chunkDateRange_0_100_90, syncChunks]
    simp
  · simp

end Sync

namespace Nifty

/-- The accumulation loop of the `/nifty50-1min` handler (README):
`allCandles = allCandles.concat(history.candles)` over the batches in
delivery order. -/
def accumulate (batches : List (List Market.Candle)) : List Market.Candle :=
  batches.flatten

/-- `allCandles.sort((a, b) => a[0] - b[0])`: sort the accumulated candles
ascending by their timestamp field (index 0). JavaScript's `sort` with
this comparator is a total-preorder sort; it is modelled by merge sort. -/
def sortCandles (candles : List Market.Candle) : List Market.Candle :=
  candles.mergeSort (fun a b => a.timestamp ≤ b.timestamp)

/-- The handler pipeline between fetching and storage: accumulate every
batch's candles in delivery order, then sort the full set by timestamp;
the result is what `insertCandlesToDB` receives. -/
def storedCandles (batches : List (List Market.Candle)) : List Market.Candle :=
  sortCandles (accumulate batches)

/-- C6: whatever order the chunks' candles were delivered in, the full
accumulated candle set handed to storage is sorted ascending by timestamp
and contains exactly the delivered candles. -/
theorem storedCandles_sorted (batches : List (List Market.Candle)) :
    List.Sorted (fun a b : Market.Candle => a.timestamp ≤ b.timestamp)
      (storedCandles batches)
    ∧ (storedCandles batches).Perm (accumulate batches) := by
  constructor
  · have h := @List.sorted_mergeSort Market.Candle
      (fun a b : Market.Candle => decide (a.timestamp ≤ b.timestamp))
      (fun a b c => by simp_all; omega)
      (fun a b => by simp [le_total])
      (accumulate batches)
    simpa [storedCandles, sortCandles, List.Sorted] using h
  · exact List.mergeSort_perm _ _

end Nifty

namespace HttpClient

/-- A request's mutable `_retry` flag, set by the response interceptor
before retrying so that a second 401 on the same request cannot trigger
another retry. -/
structure Request where
  retryFlag : Bool
  deriving Repr, DecidableEq

/-- What the upstream returns for one attempt of a request: a success
body, an error response with an HTTP status, or a network error with no
response (`error.response` undefined, so `status` is undefined). -/
inductive AttemptResult where
  | success (body : String)
  | httpError (status : Nat)
  | networkError
  deriving Repr, DecidableEq

/-- What the wrapped call finally yields: the response, a rejected HTTP or
network error, or a refresh failure propagated out of the interceptor's
catch block. -/
inductive ClientResult where
  | success (body : String)
  | httpError (status : Nat)
  | networkError
  | refreshError (e : TokenManager.TMError)
  deriving Repr

/-- One dispatch through `fyersHttpClient` plus its response interceptor:
`attempts` lists the upstream's outcome for this dispatch and any retry.
A 401 on a request not yet marked `_retry` sets the mark, awaits
`fyersTokenManager.refreshAccessToken()` and, when it succeeds, resends
the request through the client (`return fyersHttpClient(originalRequest)`),
whose next attempt is handled by the same interceptor with the mark set;
a failed refresh rejects with the refresh error; every other error
rejects unchanged. Returns the final outcome, the number of token
refresh calls, and the number of upstream attempts made. -/
def runClient (tm : TokenManager.TMState) (up : TokenManager.Upstream) (now : Int)
    (attempts : List AttemptResult) (req : Request) : ClientResult × Nat × Nat :=
  match attempts with
  | [] => (.networkError, 0, 0)
  | a :: rest =>
    match a with
    | .success body => (.success body, 0, 1)
    | .networkError => (.networkError, 0, 1)
    | .httpError status =>
      if status = 401 ∧ req.retryFlag = false then
        let o := TokenManager.refreshAccessToken up now tm
        match o.result with
        | .error e => (.refreshError e, 1, 1)
        | .ok _ =>
          let r := runClient o.state up now rest ⟨true⟩
          (r.1, 1 + r.2.1, 1 + r.2.2)
      else
        (.httpError status, 0, 1)

/-- C2: on a 401 to a not-yet-retried request with a working refresh, the
interceptor forces exactly one token refresh and retries exactly once
(two upstream attempts in total), the retried request succeeding with its
response; a second consecutive 401 on the retried (marked) request
propagates as an error with no further retry; and every non-401 error
status — or a response-less network error — propagates unchanged with no
refresh and no retry. -/
theorem interceptor_401_retry (tm : TokenManager.TMState) (up : TokenManager.Upstream)
    (now : Int) (v body : String) (status : Nat) (rest : List AttemptResult)
    (req : Request)
    (hok : (TokenManager.refreshAccessToken up now tm).result = .ok v)
    (hs : status ≠ 401) :
    runClient tm up now [.httpError 401, .success body] ⟨false⟩ = (.success body, 1, 2)
    ∧ runClient tm up now [.httpError 401, .httpError 401] ⟨false⟩ =
      (.httpError 401, 1, 2)
    ∧ runClient tm up now (.httpError status :: rest) req = (.httpError status, 0, 1)
    ∧ runClient tm up now (.networkError :: rest) req = (.networkError, 0, 1) := by
  refine ⟨?_, ?_, ?_, ?_⟩
  · rw [runClient, if_pos ⟨rfl, rfl⟩]
    simp only
    rw [hok]
    rw [runClient]
    rfl
  · rw [runClient, if_pos ⟨rfl, rfl⟩]
    simp only
    rw [hok]
    rw [runClient, if_neg (by simp)]
    rfl
  · rw [runClient, if_neg (by simp [hs])]
  · rw [runClient]

/-- Witness for C2 from a concrete state whose refresh succeeds: the 401
is retried once with one refresh; a double 401 rejects after the single
retry; a 500 and a network error propagate untouched. -/
theorem interceptor_401_retry_witness :
    runClient ⟨some ⟨"old", "r", 5000⟩, none⟩ (.ok ⟨"new", none, none⟩) 1000
      [.httpError 401, .success "data"] ⟨false⟩ = (.success "data", 1, 2)
    ∧ runClient ⟨some ⟨"old", "r", 5000⟩, none⟩ (.ok ⟨"new", none, none⟩) 1000
      [.httpError 401, .httpError 401] ⟨false⟩ = (.httpError 401, 1, 2)
    ∧ runClient ⟨some ⟨"old", "r", 5000⟩, none⟩ (.ok ⟨"new", none, none⟩) 1000
      [.httpError 500] ⟨false⟩ = (.httpError 500, 0, 1) := by
  obtain ⟨h1, h2, h3, _⟩ :=
    interceptor_401_retry ⟨some ⟨"old", "r", 5000⟩, none⟩ (.ok ⟨"new", none, none⟩)
      1000 "new" "data" 500 [] ⟨false⟩ rfl (by norm_num)
  exact ⟨h1, h2, h3⟩

end HttpClient

namespace Concurrency

open TokenManager

/-- Index of a promise created by `this.refreshPromise = this.performRefresh()`. -/
abbrev PromiseId := Nat

/-- Where a `performRefresh` fiber stands. `start`: its first statement is
`await fyersTokenStore.get()`, so nothing has run yet; `posted`: the read
was delivered, the missing-token check passed and the POST went out
(capturing the snapshot `token.refreshToken`); `finished`: the promise is
settled. -/
inductive FiberStage where
  | start
  | posted (refreshToken : String)
  | finished
  deriving Repr

/-- A refresh promise: its fiber's stage and, once settled, its outcome. -/
structure RefreshPromise where
  stage : FiberStage
  outcome : Option (Except TMError String)
  deriving Repr

/-- One caller task, between the `await` boundaries of the source.
`rcStart`: a `refreshAccessToken` call whose synchronous body (the
check-and-set of `this.refreshPromise`) has not run yet. `gvStart`: a
`getValidAccessToken` call whose `await fyersTokenStore.get()` is in
flight. `gvCheck`: the read was delivered with the given snapshot; the
expiry check on that snapshot is pending. `awaiting p`: the call awaits
promise `p`. `done`: the call returned or threw. -/
inductive TaskState where
  | rcStart
  | gvStart
  | gvCheck (snapshot : Option FyersToken)
  | awaiting (p : PromiseId)
  | done (r : Except TMError String)
  deriving Repr

/-- The machine: the token store, the manager's `refreshPromise` field
(the id of the cached promise), the promises created so far, the caller
tasks, and how many upstream refresh POSTs have been issued. -/
structure Config where
  store : Option FyersToken
  refreshPromise : Option PromiseId
  promises : List RefreshPromise
  tasks : List TaskState
  requests : Nat
  deriving Repr

/-- Scheduler events, one per `await` boundary: run a task's next
synchronous segment, deliver a task's token-store read, run a refresh
fiber's segment up to its POST, deliver the upstream's response
(`performRefresh` then saves and settles), or resume a task whose awaited
promise has settled. An event whose subject is not in a matching state is
a no-op. -/
inductive Event where
  | taskRun (i : Nat)
  | storeRead (i : Nat)
  | fiberRun (p : PromiseId)
  | respond (p : PromiseId) (r : Upstream)
  | resume (i : Nat)

/-- The synchronous body of `refreshAccessToken` run by task `i`: if a
promise is cached, await it; otherwise create a fresh `performRefresh`
promise, cache it and await it. -/
def runRcBody (cfg : Config) (i : Nat) : Config :=
  match cfg.refreshPromise with
  | some p => { cfg with tasks := cfg.tasks.set i (.awaiting p) }
  | none =>
    { cfg with
      refreshPromise := some cfg.promises.length
      promises := cfg.promises ++ [⟨.start, none⟩]
      tasks := cfg.tasks.set i (.awaiting cfg.promises.length) }

/-- One scheduler step. -/
def step (now : Int) (cfg : Config) (ev : Event) : Config :=
  match ev with
  | .taskRun i =>
    match cfg.tasks[i]? with
    | some .rcStart => runRcBody cfg i
    | some (.gvCheck snapshot) =>
      match snapshot with
      | none => { cfg with tasks := cfg.tasks.set i (.done (.error .tokenMissing)) }
      | some t =>
        if t.expiresAt > now + 60000 then
          { cfg with tasks := cfg.tasks.set i (.done (.ok t.accessToken)) }
        else
          runRcBody cfg i
    | _ => cfg
  | .storeRead i =>
    match cfg.tasks[i]? with
    | some .gvStart => { cfg with tasks := cfg.tasks.set i (.gvCheck cfg.store) }
    | _ => cfg
  | .fiberRun p =>
    match cfg.promises[p]? with
    | some pr =>
      match pr.stage with
      | .start =>
        match cfg.store with
        | none =>
          { cfg with promises :=
              cfg.promises.set p ⟨.finished, some (.error .refreshTokenMissing)⟩ }
        | some t =>
          { cfg with
            promises := cfg.promises.set p ⟨.posted t.refreshToken, none⟩
            requests := cfg.requests + 1 }
      | _ => cfg
    | none => cfg
  | .respond p r =>
    match cfg.promises[p]? with
    | some pr =>
      match pr.stage with
      | .posted rt =>
        match r with
        | .error status =>
          { cfg with promises :=
              cfg.promises.set p ⟨.finished, some (.error (.upstream status))⟩ }
        | .ok resp =>
          { cfg with
            store := some ⟨resp.access_token, resp.refresh_token.getD rt,
              now + jsOrNum resp.expires_in 86400 * 1000⟩
            promises := cfg.promises.set p ⟨.finished, some (.ok resp.access_token)⟩ }
      | _ => cfg
    | none => cfg
  | .resume i =>
    match cfg.tasks[i]? with
    | some (.awaiting p) =>
      match cfg.promises[p]? with
      | some pr =>
        match pr.outcome with
        | some (.ok v) =>
          { cfg with tasks := cfg.tasks.set i (.done (.ok v)), refreshPromise := none }
        | some (.error e) =>
          { cfg with tasks := cfg.tasks.set i (.done (.error e)) }
        | none => cfg
      | none => cfg
    | _ => cfg

/-- Run a schedule. -/
def run (now : Int) (cfg : Config) (evs : List Event) : Config :=
  evs.foldl (step now) cfg

/-- The settled outcome of a refresh whose POST was answered with `r`. -/
def settleOutcome (r : Upstream) : Except TMError String :=
  match r with
  | .error status => .error (.upstream status)
  | .ok resp => .ok resp.access_token

end Concurrency

namespace Concurrency

/-- C1 counterexample: a `getValidAccessToken` call made while a refresh
is in flight can cause a SECOND upstream refresh request. Start from a
state whose stored token expires within 60 s, with one refresh in flight
(task 0 awaits promise 0, whose POST — the one counted request — is out)
and a `getValidAccessToken` call (task 1) just made, its store read in
flight. Schedule: the read is delivered while the stale token is still
stored; the in-flight refresh then completes (saving a fresh token and
resolving); task 0 resumes and clears `refreshPromise`; task 1 now runs
its expiry check on the STALE snapshot, finds `refreshPromise` empty, and
starts a new `performRefresh`, whose fiber issues a second POST. The
upstream answers both refreshes: two requests in total, and the
`getValidAccessToken` caller ends with the second refresh's token, not the
first's — against the claimed single upstream request shared by all
callers. Every step is one `await` boundary of the source. -/
theorem gv_call_during_refresh_second_request :
    (run 1000
      ⟨some ⟨"old", "r", 5000⟩, some 0, [⟨.posted "r", none⟩],
        [.awaiting 0, .gvStart], 1⟩
      [.storeRead 1, .respond 0 (.ok ⟨"new", none, none⟩), .resume 0,
        .taskRun 1, .fiberRun 1, .respond 1 (.ok ⟨"new2", none, none⟩),
        .resume 1]).requests = 2
    ∧ (run 1000
      ⟨some ⟨"old", "r", 5000⟩, some 0, [⟨.posted "r", none⟩],
        [.awaiting 0, .gvStart], 1⟩
      [.storeRead 1, .respond 0 (.ok ⟨"new", none, none⟩), .resume 0,
        .taskRun 1, .fiberRun 1, .respond 1 (.ok ⟨"new2", none, none⟩),
        .resume 1]).tasks = [.done (.ok "new"), .done (.ok "new2")] := by
  constructor
  · rfl
  · rfl

end Concurrency

namespace Concurrency

open TokenManager

/-- While the single refresh `p` is in flight (POST out, unsettled,
cached in `refreshPromise`): every task is either a `refreshAccessToken`
call that has not run yet or already awaits `p`. -/
def Phase1 (p : PromiseId) (rt : String) (cfg : Config) : Prop :=
  cfg.refreshPromise = some p
  ∧ cfg.promises[p]? = some ⟨.posted rt, none⟩
  ∧ ∀ t ∈ cfg.tasks, t = .rcStart ∨ t = .awaiting p

/-- After the upstream answered: promise `p` is settled with `o` and every
task either still awaits `p` or is done with `o`. -/
def Phase2 (p : PromiseId) (o : Except TMError String) (cfg : Config) : Prop :=
  cfg.promises[p]? = some ⟨.finished, some o⟩
  ∧ ∀ t ∈ cfg.tasks, t = .awaiting p ∨ t = .done o

theorem mem_of_getElem_some {α : Type} {l : List α} {i : Nat} {a : α}
    (h : l[i]? = some a) : a ∈ l := by
  obtain ⟨hlt, he⟩ := List.getElem?_eq_some.mp h
  exact he ▸ List.getElem_mem hlt

/-- Running a caller's synchronous body while the refresh is in flight
attaches it to the in-flight promise: no new promise, no POST, no store
access. -/
theorem step_taskRun_phase1 (now : Int) (p : PromiseId) (rt : String)
    (cfg : Config) (i : Nat) (h : Phase1 p rt cfg) :
    Phase1 p rt (step now cfg (.taskRun i))
    ∧ (step now cfg (.taskRun i)).requests = cfg.requests
    ∧ (step now cfg (.taskRun i)).promises = cfg.promises
    ∧ (step now cfg (.taskRun i)).tasks.length = cfg.tasks.length
    ∧ (∀ j : Nat, cfg.tasks[j]? = some (TaskState.awaiting p) →
        (step now cfg (.taskRun i)).tasks[j]? = some (TaskState.awaiting p))
    ∧ (i < cfg.tasks.length →
        (step now cfg (.taskRun i)).tasks[i]? = some (TaskState.awaiting p)) := by
  obtain ⟨h1, h2, h3⟩ := h
  match hti : cfg.tasks[i]? with
  | none =>
    have hlen : cfg.tasks.length ≤ i := List.getElem?_eq_none_iff.mp hti
    have hstep : step now cfg (.taskRun i) = cfg := by
      rw [step, hti]
    rw [hstep]
    exact ⟨⟨h1, h2, h3⟩, rfl, rfl, rfl, fun j hj => hj, fun hi => absurd hi (by omega)⟩
  | some t =>
    rcases h3 t (mem_of_getElem_some hti) with rfl | rfl
    · have hstep : step now cfg (.taskRun i) =
          { cfg with tasks := cfg.tasks.set i (.awaiting p) } := by
        rw [step, hti]
        rw [runRcBody, h1]
      rw [hstep]
      refine ⟨⟨h1, h2, ?_⟩, rfl, rfl, by simp, ?_, ?_⟩
      · intro t ht
        rcases List.mem_or_eq_of_mem_set ht with ht | rfl
        · exact h3 t ht
        · exact Or.inr rfl
      · intro j hj
        by_cases hij : i = j
        · subst hij
          have hlt := (List.getElem?_eq_some.mp hj).1
          simp [List.getElem?_set_self, hlt]
        · simp only [List.getElem?_set_ne hij]
          exact hj
      · intro hi
        simp [List.getElem?_set_self, hi]
    · have hstep : step now cfg (.taskRun i) = cfg := by
        rw [step, hti]
      rw [hstep]
      exact ⟨⟨h1, h2, h3⟩, rfl, rfl, rfl, fun j hj => hj, fun _ => hti⟩

end Concurrency

namespace Concurrency

open TokenManager

/-- Any number of caller bodies run while the refresh is in flight: the
request count, the promises and the task count never change, tasks already
attached stay attached, and every caller whose body ran is attached. -/
theorem run_starts_phase1 (now : Int) (p : PromiseId) (rt : String) :
    ∀ (starts : List Nat) (cfg : Config), Phase1 p rt cfg →
      Phase1 p rt (run now cfg (starts.map Event.taskRun))
      ∧ (run now cfg (starts.map Event.taskRun)).requests = cfg.requests
      ∧ (run now cfg (starts.map Event.taskRun)).promises = cfg.promises
      ∧ (run now cfg (starts.map Event.taskRun)).tasks.length = cfg.tasks.length
      ∧ (∀ j : Nat, cfg.tasks[j]? = some (TaskState.awaiting p) →
          (run now cfg (starts.map Event.taskRun)).tasks[j]? =
            some (TaskState.awaiting p))
      ∧ (∀ i ∈ starts, i < cfg.tasks.length →
          (run now cfg (starts.map Event.taskRun)).tasks[i]? =
            some (TaskState.awaiting p)) := by
  intro starts
  induction starts with
  | nil =>
    intro cfg h
    exact ⟨h, rfl, rfl, rfl, fun j hj => hj, by simp⟩
  | cons i rest ih =>
    intro cfg h
    obtain ⟨h1, h2, h3, h4, h5, h6⟩ := step_taskRun_phase1 now p rt cfg i h
    have hrun : run now cfg ((i :: rest).map Event.taskRun) =
        run now (step now cfg (.taskRun i)) (rest.map Event.taskRun) := rfl
    obtain ⟨g1, g2, g3, g4, g5, g6⟩ := ih (step now cfg (.taskRun i)) h1
    rw [hrun]
    refine ⟨g1, g2.trans h2, g3.trans h3, g4.trans h4, ?_, ?_⟩
    · intro j hj
      exact g5 j (h5 j hj)
    · intro k hk hklen
      rcases List.mem_cons.mp hk with rfl | hk
      · exact g5 k (h6 hklen)
      · exact g6 k hk (by omega)

/-- The single upstream response: promise `p` settles with its outcome,
the store is updated on success, and no task or request count changes. -/
theorem step_respond_phase1 (now : Int) (p : PromiseId) (rt : String)
    (cfg : Config) (r : Upstream) (h : Phase1 p rt cfg) :
    (step now cfg (.respond p r)).promises[p]? =
      some ⟨.finished, some (settleOutcome r)⟩
    ∧ (step now cfg (.respond p r)).tasks = cfg.tasks
    ∧ (step now cfg (.respond p r)).requests = cfg.requests := by
  obtain ⟨h1, h2, h3⟩ := h
  have hplt : p < cfg.promises.length := (List.getElem?_eq_some.mp h2).1
  match r with
  | .error status =>
    have hstep : step now cfg (.respond p (.error status)) =
        { cfg with promises :=
            cfg.promises.set p ⟨.finished, some (.error (.upstream status))⟩ } := by
      rw [step, h2]
    rw [hstep]
    exact ⟨by simp [List.getElem?_set_self, hplt, settleOutcome], rfl, rfl⟩
  | .ok resp =>
    have hstep : step now cfg (.respond p (.ok resp)) =
        { cfg with
          store := some ⟨resp.access_token, resp.refresh_token.getD rt,
            now + jsOrNum resp.expires_in 86400 * 1000⟩
          promises := cfg.promises.set p ⟨.finished, some (.ok resp.access_token)⟩ } := by
      rw [step, h2]
    rw [hstep]
    exact ⟨by simp [List.getElem?_set_self, hplt, settleOutcome], rfl, rfl⟩

/-- Resuming a task once the promise is settled: it receives the settled
outcome; nothing else changes except the `refreshPromise` clear of the
resolve path. -/
theorem step_resume_phase2 (now : Int) (p : PromiseId) (o : Except TMError String)
    (cfg : Config) (i : Nat) (h : Phase2 p o cfg) :
    Phase2 p o (step now cfg (.resume i))
    ∧ (step now cfg (.resume i)).requests = cfg.requests
    ∧ (step now cfg (.resume i)).tasks.length = cfg.tasks.length
    ∧ (∀ j : Nat, cfg.tasks[j]? = some (TaskState.done o) →
        (step now cfg (.resume i)).tasks[j]? = some (TaskState.done o))
    ∧ (i < cfg.tasks.length →
        (step now cfg (.resume i)).tasks[i]? = some (TaskState.done o)) := by
  obtain ⟨h1, h2⟩ := h
  match hti : cfg.tasks[i]? with
  | none =>
    have hlen : cfg.tasks.length ≤ i := List.getElem?_eq_none_iff.mp hti
    have hstep : step now cfg (.resume i) = cfg := by
      rw [step, hti]
    rw [hstep]
    exact ⟨⟨h1, h2⟩, rfl, rfl, fun j hj => hj, fun hi => absurd hi (by omega)⟩
  | some t =>
    rcases h2 t (mem_of_getElem_some hti) with rfl | rfl
    · have hset : Phase2 p o { cfg with tasks := cfg.tasks.set i (.done o) }
          ∧ (cfg.tasks.set i (.done o)).length = cfg.tasks.length
          ∧ (∀ j : Nat, cfg.tasks[j]? = some (TaskState.done o) →
              (cfg.tasks.set i (.done o))[j]? = some (TaskState.done o))
          ∧ (i < cfg.tasks.length →
              (cfg.tasks.set i (.done o))[i]? = some (TaskState.done o)) := by
        refine ⟨⟨h1, ?_⟩, by simp, ?_, ?_⟩
        · intro t ht
          rcases List.mem_or_eq_of_mem_set ht with ht | rfl
          · exact h2 t ht
          · exact Or.inr rfl
        · intro j hj
          by_cases hij : i = j
          · subst hij
            have hlt := (List.getElem?_eq_some.mp hj).1
            simp [List.getElem?_set_self, hlt]
          · simp only [List.getElem?_set_ne hij]
            exact hj
        · intro hi
          simp [List.getElem?_set_self, hi]
      match o with
      | .ok v =>
        have hstep : step now cfg (.resume i) =
            { cfg with tasks := cfg.tasks.set i (.done (.ok v)),
                       refreshPromise := none } := by
          rw [step, hti]
          simp only
          rw [h1]
        rw [hstep]
        exact ⟨hset.1, rfl, hset.2.1, hset.2.2.1, hset.2.2.2⟩
      | .error e =>
        have hstep : step now cfg (.resume i) =
            { cfg with tasks := cfg.tasks.set i (.done (.error e)) } := by
          rw [step, hti]
          simp only
          rw [h1]
        rw [hstep]
        exact ⟨hset.1, rfl, hset.2.1, hset.2.2.1, hset.2.2.2⟩
    · have hstep : step now cfg (.resume i) = cfg := by
        rw [step, hti]
      rw [hstep]
      exact ⟨⟨h1, h2⟩, rfl, rfl, fun j hj => hj, fun _ => hti⟩

/-- Any order of resumptions after the settle: every resumed task holds
the settled outcome, and the request count never moves. -/
theorem run_resumes_phase2 (now : Int) (p : PromiseId) (o : Except TMError String) :
    ∀ (resumes : List Nat) (cfg : Config), Phase2 p o cfg →
      Phase2 p o (run now cfg (resumes.map Event.resume))
      ∧ (run now cfg (resumes.map Event.resume)).requests = cfg.requests
      ∧ (run now cfg (resumes.map Event.resume)).tasks.length = cfg.tasks.length
      ∧ (∀ j : Nat, cfg.tasks[j]? = some (TaskState.done o) →
          (run now cfg (resumes.map Event.resume)).tasks[j]? =
            some (TaskState.done o))
      ∧ (∀ i ∈ resumes, i < cfg.tasks.length →
          (run now cfg (resumes.map Event.resume)).tasks[i]? =
            some (TaskState.done o)) := by
  intro resumes
  induction resumes with
  | nil =>
    intro cfg h
    exact ⟨h, rfl, rfl, fun j hj => hj, by simp⟩
  | cons i rest ih =>
    intro cfg h
    obtain ⟨h1, h2, h3, h4, h5⟩ := step_resume_phase2 now p o cfg i h
    have hrun : run now cfg ((i :: rest).map Event.resume) =
        run now (step now cfg (.resume i)) (rest.map Event.resume) := rfl
    obtain ⟨g1, g2, g3, g4, g5⟩ := ih (step now cfg (.resume i)) h1
    rw [hrun]
    refine ⟨g1, g2.trans h2, g3.trans h3, ?_, ?_⟩
    · intro j hj
      exact g4 j (h4 j hj)
    · intro k hk hklen
      rcases List.mem_cons.mp hk with rfl | hk
      · exact g4 k (h5 hklen)
      · exact g5 k hk (by omega)

end Concurrency

namespace Concurrency

open TokenManager

/-- C1 (amended): single-flight holds for `refreshAccessToken` callers.
From any state with one refresh in flight (promise `p`: POST issued,
unsettled, cached in `refreshPromise`) and every task a
`refreshAccessToken` call (not yet run, or already attached to `p`), any
schedule in which every caller's body runs while the refresh is still in
flight, the upstream then answers once, and the callers resume in any
order, issues NO additional upstream request — the in-flight POST stays
the only one — and every caller ends with that single refresh's settled
outcome. (A `getValidAccessToken` caller can escape this guarantee through
a stale store snapshot: see the counterexample.) -/
theorem single_flight_refresh (now : Int) (p : PromiseId) (rt : String)
    (r : Upstream) (cfg : Config) (starts resumes : List Nat)
    (hp : cfg.refreshPromise = some p)
    (hpr : cfg.promises[p]? = some ⟨.posted rt, none⟩)
    (htasks : ∀ t ∈ cfg.tasks, t = TaskState.rcStart ∨ t = TaskState.awaiting p)
    (hstarts : ∀ i < cfg.tasks.length, i ∈ starts)
    (hresumes : ∀ i < cfg.tasks.length, i ∈ resumes) :
    (run now cfg (starts.map Event.taskRun ++
      Event.respond p r :: resumes.map Event.resume)).requests = cfg.requests
    ∧ ∀ i < cfg.tasks.length,
      (run now cfg (starts.map Event.taskRun ++
        Event.respond p r :: resumes.map Event.resume)).tasks[i]? =
        some (TaskState.done (settleOutcome r)) := by
  obtain ⟨ph1, hreq1, _hprom1, hlen1, _hpres1, hstarts1⟩ :=
    run_starts_phase1 now p rt starts cfg ⟨hp, hpr, htasks⟩
  have hsplit : run now cfg (starts.map Event.taskRun ++
      Event.respond p r :: resumes.map Event.resume) =
      run now (step now (run now cfg (starts.map Event.taskRun)) (.respond p r))
        (resumes.map Event.resume) := by
    rw [run, List.foldl_append]
    rfl
  have hall1 : ∀ j < cfg.tasks.length,
      (run now cfg (starts.map Event.taskRun)).tasks[j]? =
        some (TaskState.awaiting p) :=
    fun j hj => hstarts1 j (hstarts j hj) hj
  obtain ⟨hro, hrt, hrq⟩ :=
    step_respond_phase1 now p rt (run now cfg (starts.map Event.taskRun)) r ph1
  have hph2 : Phase2 p (settleOutcome r)
      (step now (run now cfg (starts.map Event.taskRun)) (.respond p r)) := by
    refine ⟨hro, ?_⟩
    intro t ht
    rw [hrt] at ht
    obtain ⟨j, hj, he⟩ := List.getElem_of_mem ht
    have hje : (run now cfg (starts.map Event.taskRun)).tasks[j]? = some t := by
      rw [List.getElem?_eq_some]
      exact ⟨hj, he⟩
    have hjlt : j < cfg.tasks.length := by omega
    have := hall1 j hjlt
    rw [hje] at this
    exact Or.inl (Option.some.injEq .. ▸ this.symm ▸ rfl)
  obtain ⟨_ph2f, hreq2, hlen2, _hpres2, hres2⟩ :=
    run_resumes_phase2 now p (settleOutcome r) resumes
      (step now (run now cfg (starts.map Event.taskRun)) (.respond p r)) hph2
  constructor
  · rw [hsplit, hreq2, hrq, hreq1]
  · intro i hi
    rw [hsplit]
    have hilen : i < (step now (run now cfg (starts.map Event.taskRun))
        (.respond p r)).tasks.length := by
      rw [hrt]
      omega
    exact hres2 i (hresumes i hi) hilen

/-- Witness for C1 (amended): two `refreshAccessToken` callers — one
already awaiting the in-flight refresh, one not yet run — both end with
the single refresh's token and the request count stays at the one POST
already issued. -/
theorem single_flight_refresh_witness :
    (run 1000
      ⟨some ⟨"old", "r", 5000⟩, some 0, [⟨.posted "r", none⟩],
        [.rcStart, .awaiting 0], 1⟩
      [.taskRun 0, .taskRun 1, .respond 0 (.ok ⟨"new", none, none⟩),
        .resume 0, .resume 1]).requests = 1
    ∧ ∀ i < 2,
      (run 1000
        ⟨some ⟨"old", "r", 5000⟩, some 0, [⟨.posted "r", none⟩],
          [.rcStart, .awaiting 0], 1⟩
        [.taskRun 0, .taskRun 1, .respond 0 (.ok ⟨"new", none, none⟩),
          .resume 0, .resume 1]).tasks[i]? = some (TaskState.done (.ok "new")) := by
  have h := single_flight_refresh 1000 0 "r" (.ok ⟨"new", none, none⟩)
    ⟨some ⟨"old", "r", 5000⟩, some 0, [⟨.posted "r", none⟩],
      [.rcStart, .awaiting 0], 1⟩
    [0, 1] [0, 1] rfl rfl
    (by
      intro t ht
      rcases List.mem_cons.mp ht with rfl | ht
      · exact Or.inl rfl
      · rcases List.mem_singleton.mp ht with rfl
        exact Or.inr rfl)
    (by decide) (by decide)
  exact h

end Concurrency
